import Mathlib

set_option maxRecDepth 20000

/-!
Verification of the colorwerkz lazy-metadata subsystem.

This file gives a shallow embedding of the two source modules the claims are
about:

* `src/server/metadata_cache_manager.py` — the two-tier (L1 Redis / L2
  PostgreSQL) cache manager `MetadataCacheManager`;
* `src/server/metadata_lazy_evaluator.py` — the per-instance memoization
  descriptor `LazyProperty`.

Python machine-level details are modelled as follows: 32-bit words in the key
hash are `Nat` with explicit reduction mod 2^32; JSON (de)serialization of a
cached value is a `Cell` that is either a well-formed serialization of a value
or corrupt bytes that `json.loads` rejects; Python exceptions raised by the
pluggable tier backends are injected through an explicit `Faults` record (the
source wraps every backend call in `try/except`); the one exception channel
that escapes `get` — an error raised by `compute_func` — is an `Except`.
Division in the statistics report is embedded as exact rational arithmetic.
-/

/-! ## SHA-256 (hashlib.sha256), used by `_generate_cache_key`

The source derives cache keys with `hashlib.sha256(key_string.encode())
.hexdigest()[:16]`.  We embed SHA-256 executably over `Nat` with explicit
reduction modulo 2^32. -/

/-- Reduce a natural number to a 32-bit word. -/
def w32 (n : Nat) : Nat := n % 4294967296

/-- Right rotation of a 32-bit word by `r` positions (`0 < r < 32`). -/
def rotr32 (x r : Nat) : Nat := w32 ((x >>> r) ||| (x <<< (32 - r)))

/-- Bitwise complement of a 32-bit word. -/
def not32 (x : Nat) : Nat := x ^^^ 4294967295

/-- SHA-256 round constants (fractional parts of cube roots of the first 64
primes). -/
def sha256K : List Nat :=
  [1116352408, 1899447441, 3049323471, 3921009573, 961987163, 1508970993,
   2453635748, 2870763221, 3624381080, 310598401, 607225278, 1426881987,
   1925078388, 2162078206, 2614888103, 3248222580, 3835390401, 4022224774,
   264347078, 604807628, 770255983, 1249150122, 1555081692, 1996064986,
   2554220882, 2821834349, 2952996808, 3210313671, 3336571891, 3584528711,
   113926993, 338241895, 666307205, 773529912, 1294757372, 1396182291,
   1695183700, 1986661051, 2177026350, 2456956037, 2730485921, 2820302411,
   3259730800, 3345764771, 3516065817, 3600352804, 4094571909, 275423344,
   430227734, 506948616, 659060556, 883997877, 958139571, 1322822218,
   1537002063, 1747873779, 1955562222, 2024104815, 2227730452, 2361852424,
   2428436474, 2756734187, 3204031479, 3329325298]

/-- SHA-256 initial hash value (fractional parts of square roots of the first
8 primes). -/
def sha256H0 : List Nat :=
  [1779033703, 3144134277, 1013904242, 2773480762, 1359893119, 2600822924,
   528734635, 1541459225]

/-- UTF-8 encoding of one Unicode scalar value (Python `str.encode()`). -/
def utf8Bytes (c : Nat) : List Nat :=
  if c < 128 then [c]
  else if c < 2048 then
    [192 ||| (c >>> 6), 128 ||| (c &&& 63)]
  else if c < 65536 then
    [224 ||| (c >>> 12), 128 ||| ((c >>> 6) &&& 63), 128 ||| (c &&& 63)]
  else
    [240 ||| (c >>> 18), 128 ||| ((c >>> 12) &&& 63),
     128 ||| ((c >>> 6) &&& 63), 128 ||| (c &&& 63)]

/-- UTF-8 bytes of a string. -/
def strBytes (s : String) : List Nat :=
  s.data.flatMap (fun c => utf8Bytes c.toNat)

/-- SHA-256 padding: append `0x80`, zero bytes to 56 mod 64, then the bit
length as a 64-bit big-endian integer. -/
def sha256Pad (msg : List Nat) : List Nat :=
  let len := msg.length
  let zeros := (55 + 64 - len % 64) % 64
  let bitLen := len * 8
  msg ++ [128] ++ List.replicate zeros 0 ++
    [w32 (bitLen >>> 56) % 256, (bitLen >>> 48) % 256, (bitLen >>> 40) % 256,
     (bitLen >>> 32) % 256, (bitLen >>> 24) % 256, (bitLen >>> 16) % 256,
     (bitLen >>> 8) % 256, bitLen % 256]

/-- Group a padded byte list into 32-bit big-endian words. -/
def bytesToWords : List Nat → List Nat
  | b0 :: b1 :: b2 :: b3 :: rest =>
    (b0 <<< 24 ||| b1 <<< 16 ||| b2 <<< 8 ||| b3) :: bytesToWords rest
  | _ => []

/-- Split a word list into blocks of 16 words. -/
def wordsToBlocks : List Nat → List (List Nat)
  | w0 :: w1 :: w2 :: w3 :: w4 :: w5 :: w6 :: w7 ::
    w8 :: w9 :: w10 :: w11 :: w12 :: w13 :: w14 :: w15 :: rest =>
    [w0, w1, w2, w3, w4, w5, w6, w7, w8, w9, w10, w11, w12, w13, w14, w15] ::
      wordsToBlocks rest
  | _ => []

/-- Message-schedule small sigma 0. -/
def ssig0 (x : Nat) : Nat := rotr32 x 7 ^^^ rotr32 x 18 ^^^ (x >>> 3)

/-- Message-schedule small sigma 1. -/
def ssig1 (x : Nat) : Nat := rotr32 x 17 ^^^ rotr32 x 19 ^^^ (x >>> 10)

/-- Compression big Sigma 0. -/
def bsig0 (x : Nat) : Nat := rotr32 x 2 ^^^ rotr32 x 13 ^^^ rotr32 x 22

/-- Compression big Sigma 1. -/
def bsig1 (x : Nat) : Nat := rotr32 x 6 ^^^ rotr32 x 11 ^^^ rotr32 x 25

/-- Extend the 16 message words to the 64-word schedule. -/
def sha256Schedule (ws : List Nat) : Nat → List Nat
  | 0 => ws
  | n + 1 =>
    let i := ws.length
    let wNew := w32 (ssig1 (ws.getD (i - 2) 0) + ws.getD (i - 7) 0 +
      ssig0 (ws.getD (i - 15) 0) + ws.getD (i - 16) 0)
    sha256Schedule (ws ++ [wNew]) n

/-- One SHA-256 compression round. -/
def sha256Round (st : List Nat) (kw : Nat × Nat) : List Nat :=
  match st with
  | [a, b, c, d, e, f, g, h] =>
    let ch := (e &&& f) ^^^ (not32 e &&& g)
    let maj := (a &&& b) ^^^ (a &&& c) ^^^ (b &&& c)
    let t1 := w32 (h + bsig1 e + ch + kw.1 + kw.2)
    let t2 := w32 (bsig0 a + maj)
    [w32 (t1 + t2), a, b, c, w32 (d + t1), e, f, g]
  | st => st

/-- Process one 16-word block, updating the running hash. -/
def sha256Block (hv : List Nat) (block : List Nat) : List Nat :=
  let ws := sha256Schedule block 48
  let st := (sha256K.zip ws |>.foldl (fun st kw => sha256Round st kw) hv)
  (hv.zip st).map (fun p => w32 (p.1 + p.2))

/-- SHA-256 digest of a byte list, as eight 32-bit words. -/
def sha256Words (msg : List Nat) : List Nat :=
  (wordsToBlocks (bytesToWords (sha256Pad msg))).foldl sha256Block sha256H0

/-- One lowercase hexadecimal digit. -/
def hexDigit (n : Nat) : Char :=
  if n < 10 then Char.ofNat (48 + n) else Char.ofNat (87 + n)

/-- Fixed-width big-endian hexadecimal rendering of a word. -/
def hexWord (x : Nat) : Nat → List Char
  | 0 => []
  | d + 1 => hexDigit ((x >>> (4 * d)) &&& 15) :: hexWord x d

/-- Lowercase hex digest of a string, as produced by
`hashlib.sha256(s.encode()).hexdigest()`. -/
def sha256hex (s : String) : String :=
  ⟨(sha256Words (strBytes s)).flatMap (fun w => hexWord w 8)⟩

/-! ## Cache key derivation (`MetadataCacheManager._generate_cache_key`) -/

/-- The f-string `f"metadata:\x7bmetadata_id\x7d:\x7bproperty_name\x7d"` built
at `metadata_cache_manager.py:99`. -/
def key_string (metadata_id property_name : String) : String :=
  "metadata:" ++ metadata_id ++ ":" ++ property_name

/-- `MetadataCacheManager._generate_cache_key`
(`metadata_cache_manager.py:93-100`): the first 16 hex characters (Python
slice `[:16]`, taken character-wise) of the SHA-256 digest of the key
string. -/
def generate_cache_key (metadata_id property_name : String) : String :=
  ⟨(sha256hex (key_string metadata_id property_name)).data.take 16⟩

/-! ## Serialized cells and tier stores

A value stored in a tier is the result of `json.dumps` on some value
(`Cell.good v`), or bytes that `json.loads` (or `.decode('utf-8')`) rejects
(`Cell.corrupt`).  Deserialization is the partial inverse. -/

/-- Bytes held by a cache tier: a faithful serialization of a value, or
corrupt bytes whose deserialization raises. -/
inductive Cell (V : Type) where
  | good (v : V) : Cell V
  | corrupt : Cell V
deriving DecidableEq

/-- `json.loads` on tier bytes: succeeds exactly on well-formed
serializations. -/
def Cell.deserialize {V : Type} : Cell V → Option V
  | .good v => some v
  | .corrupt => none

/-- The L1 (Redis) key space: an association list from cache key to stored
bytes.  `redis.get` is lookup; absent keys return `None` (falsy). -/
def lookupStore {V : Type} (k : String) : List (String × Cell V) → Option (Cell V)
  | [] => none
  | (k', c) :: rest => if k' = k then some c else lookupStore k rest

/-- `redis.set` / `redis.setex`: overwrite the key if present, else append. -/
def setStore {V : Type} (k : String) (c : Cell V) :
    List (String × Cell V) → List (String × Cell V)
  | [] => [(k, c)]
  | (k', c') :: rest =>
    if k' = k then (k, c) :: rest else (k', c') :: setStore k c rest

/-- `redis.delete`: remove the key. -/
def deleteStore {V : Type} (k : String) :
    List (String × Cell V) → List (String × Cell V)
  | [] => []
  | (k', c') :: rest =>
    if k' = k then deleteStore k rest else (k', c') :: deleteStore k rest

/-- A row of the `metadata_cache` table (L2 PostgreSQL storage; see
`SQL_SCHEMA`): `cache_key` is the primary key. -/
structure L2Record (V : Type) where
  cache_key : String
  metadata_id : String
  property_name : String
  value : Cell V
deriving DecidableEq

/-- `SELECT value FROM metadata_cache WHERE cache_key = %s` followed by
`fetchone()`: at most one row since `cache_key` is the primary key. -/
def lookupL2 {V : Type} (k : String) : List (L2Record V) → Option (L2Record V)
  | [] => none
  | r :: rest => if r.cache_key = k then some r else lookupL2 k rest

/-- `INSERT ... ON CONFLICT (cache_key) DO UPDATE SET value = EXCLUDED.value`
(`metadata_cache_manager.py:237-245`): on conflict only the value column is
replaced; `metadata_id` and `property_name` keep their stored contents. -/
def upsertL2 {V : Type} (k mid pn : String) (c : Cell V) :
    List (L2Record V) → List (L2Record V)
  | [] => [⟨k, mid, pn, c⟩]
  | r :: rest =>
    if r.cache_key = k then { r with value := c } :: rest
    else r :: upsertL2 k mid pn c rest

/-- `DELETE FROM metadata_cache WHERE cache_key = %s`. -/
def deleteL2 {V : Type} (k : String) : List (L2Record V) → List (L2Record V)
  | [] => []
  | r :: rest =>
    if r.cache_key = k then deleteL2 k rest else r :: deleteL2 k rest

/-! ## Cache manager state -/

/-- The `self.stats` dictionary initialized at
`metadata_cache_manager.py:85-91`. -/
structure Stats where
  l1_hits : Nat
  l2_hits : Nat
  misses : Nat
  evictions : Nat
  total_accesses : Nat
deriving DecidableEq

/-- Counter values of a freshly constructed manager
(`MetadataCacheManager.__init__`). -/
def freshStats : Stats := ⟨0, 0, 0, 0, 0⟩

/-- Exception injection for the pluggable tier backends: each flag makes the
corresponding backend call raise.  Every such call in the source sits inside
its own `try/except` block. -/
structure Faults where
  l1_get_raises : Bool
  l2_query_raises : Bool
  l1_set_raises : Bool
  l2_set_raises : Bool
  l1_delete_raises : Bool
  l2_delete_raises : Bool
  l2_scan_raises : Bool
deriving DecidableEq

/-- A call environment where no backend call raises. -/
def noFaults : Faults := ⟨false, false, false, false, false, false, false⟩

/-- `MetadataCacheManager` state: optional L1 client (`redis_client=None`
models an absent hot tier), optional L2 connection, configuration, and the
statistics counters. -/
structure MetadataCacheManager (V : Type) where
  redis : Option (List (String × Cell V))
  postgres : Option (List (L2Record V))
  l1_capacity : Nat
  l1_ttl : Option Nat
  stats : Stats
deriving DecidableEq

/-- `self.stats['total_accesses'] += 1` (`metadata_cache_manager.py:127`). -/
def bumpTotal {V : Type} (m : MetadataCacheManager V) : MetadataCacheManager V :=
  { m with stats := { m.stats with total_accesses := m.stats.total_accesses + 1 } }

/-- `self.stats['l1_hits'] += 1` (`metadata_cache_manager.py:137`). -/
def bumpL1 {V : Type} (m : MetadataCacheManager V) : MetadataCacheManager V :=
  { m with stats := { m.stats with l1_hits := m.stats.l1_hits + 1 } }

/-- `self.stats['l2_hits'] += 1` (`metadata_cache_manager.py:160`). -/
def bumpL2 {V : Type} (m : MetadataCacheManager V) : MetadataCacheManager V :=
  { m with stats := { m.stats with l2_hits := m.stats.l2_hits + 1 } }

/-- `self.stats['misses'] += 1` (`metadata_cache_manager.py:175`). -/
def bumpMisses {V : Type} (m : MetadataCacheManager V) : MetadataCacheManager V :=
  { m with stats := { m.stats with misses := m.stats.misses + 1 } }

/-- `self.stats['evictions'] += 1` (`metadata_cache_manager.py:212`). -/
def bumpEvictions {V : Type} (m : MetadataCacheManager V) : MetadataCacheManager V :=
  { m with stats := { m.stats with evictions := m.stats.evictions + 1 } }

/-! ## Tier writes (`_set_l1`, `_set_l2`) -/

/-- `MetadataCacheManager._set_l1` (`metadata_cache_manager.py:189-215`):
serialize and store in Redis (`setex` with a TTL, `set` without — identical
store contents in this timeless model), then count an eviction when `dbsize`
exceeds the capacity; any exception is caught and logged. -/
def set_l1 {V : Type} (m : MetadataCacheManager V) (cache_key : String)
    (value : V) (f : Faults) : MetadataCacheManager V :=
  match m.redis with
  | none => m
  | some store =>
    if f.l1_set_raises then m
    else
      let store' := setStore cache_key (Cell.good value) store
      let m' := { m with redis := some store' }
      if store'.length > m'.l1_capacity then bumpEvictions m' else m'

/-- `MetadataCacheManager._set_l2` (`metadata_cache_manager.py:217-251`):
upsert the row; on an exception the transaction is rolled back, leaving the
table unchanged. -/
def set_l2 {V : Type} (m : MetadataCacheManager V)
    (cache_key metadata_id property_name : String) (value : V) (f : Faults) :
    MetadataCacheManager V :=
  match m.postgres with
  | none => m
  | some table =>
    if f.l2_set_raises then m
    else
      let table' := upsertL2 cache_key metadata_id property_name (Cell.good value) table
      { m with postgres := some table' }

/-! ## Lookup (`get`) -/

/-- The L1 block of `MetadataCacheManager.get`
(`metadata_cache_manager.py:133-141`): on a stored key the `l1_hits` counter
is incremented BEFORE `json.loads` runs; a backend exception or a
deserialization failure is caught and falls through (returns `none`). -/
def l1_phase {V : Type} (m : MetadataCacheManager V) (cache_key : String)
    (f : Faults) : Option V × MetadataCacheManager V :=
  match m.redis with
  | none => (none, m)
  | some store =>
    if f.l1_get_raises then (none, m)
    else
      match lookupStore cache_key store with
      | none => (none, m)
      | some cell =>
        let m' := bumpL1 m
        match cell.deserialize with
        | some v => (some v, m')
        | none => (none, m')

/-- The L2 block of `MetadataCacheManager.get`
(`metadata_cache_manager.py:146-169`): on a fetched row the `l2_hits` counter
is incremented BEFORE `json.loads`; a successfully deserialized value is
promoted to L1 via `_set_l1`; any exception is caught and falls through. -/
def l2_phase {V : Type} (m : MetadataCacheManager V) (cache_key : String)
    (f : Faults) : Option V × MetadataCacheManager V :=
  match m.postgres with
  | none => (none, m)
  | some table =>
    if f.l2_query_raises then (none, m)
    else
      match lookupL2 cache_key table with
      | none => (none, m)
      | some r =>
        let m' := bumpL2 m
        match r.value.deserialize with
        | some v => (some v, set_l1 m' cache_key v f)
        | none => (none, m')

/-- `MetadataCacheManager.get` (`metadata_cache_manager.py:102-187`):
increment `total_accesses`, derive the cache key, try L1, then L2, then
`compute_func`.  The only exception that escapes is one raised by
`compute_func` itself (modelled by `Except.error`); `compute_func = none`
models the `compute_func=None` call and yields the absent outcome
(`Except.ok none`). -/
def MetadataCacheManager.get {V : Type} (m : MetadataCacheManager V)
    (metadata_id property_name : String)
    (compute_func : Option (Except Unit V)) (f : Faults) :
    Except Unit (Option V) × MetadataCacheManager V :=
  match l1_phase (bumpTotal m) (generate_cache_key metadata_id property_name) f with
  | (some v, m2) => (Except.ok (some v), m2)
  | (none, m2) =>
    match l2_phase m2 (generate_cache_key metadata_id property_name) f with
    | (some v, m3) => (Except.ok (some v), m3)
    | (none, m3) =>
      match compute_func with
      | none => (Except.ok none, m3)
      | some cf =>
        match cf with
        | Except.error e => (Except.error e, bumpMisses m3)
        | Except.ok v =>
          (Except.ok (some v),
            set_l2
              (set_l1 (bumpMisses m3) (generate_cache_key metadata_id property_name) v f)
              (generate_cache_key metadata_id property_name)
              metadata_id property_name v f)

/-! ## Invalidation -/

/-- The Redis half of `MetadataCacheManager._invalidate_key`
(`metadata_cache_manager.py:292-297`): `redis.delete` inside its own
`try/except`, so a raising backend leaves the tier unchanged. -/
def l1_delete_step {V : Type} (m : MetadataCacheManager V) (cache_key : String)
    (f : Faults) : MetadataCacheManager V :=
  match m.redis with
  | none => m
  | some store =>
    if f.l1_delete_raises then m
    else { m with redis := some (deleteStore cache_key store) }

/-- The PostgreSQL half of `MetadataCacheManager._invalidate_key`
(`metadata_cache_manager.py:299-309`): the `DELETE` statement inside its own
`try/except`. -/
def l2_delete_step {V : Type} (m : MetadataCacheManager V) (cache_key : String)
    (f : Faults) : MetadataCacheManager V :=
  match m.postgres with
  | none => m
  | some table =>
    if f.l2_delete_raises then m
    else { m with postgres := some (deleteL2 cache_key table) }

/-- `MetadataCacheManager._invalidate_key`
(`metadata_cache_manager.py:288-309`): delete the key from Redis, then from
PostgreSQL; the method always returns normally. -/
def invalidate_key {V : Type} (m : MetadataCacheManager V) (cache_key : String)
    (f : Faults) : MetadataCacheManager V :=
  l2_delete_step (l1_delete_step m cache_key f) cache_key f

/-- The `else` branch of `MetadataCacheManager.invalidate`
(`metadata_cache_manager.py:268-286`): scan L2 for every key recorded for the
metadata id (`SELECT cache_key ... WHERE metadata_id = %s`) and invalidate
each one.  With no PostgreSQL connection nothing at all is removed; a raising
scan is caught and logged. -/
def invalidate_all_for_id {V : Type} (m : MetadataCacheManager V)
    (metadata_id : String) (f : Faults) : MetadataCacheManager V :=
  match m.postgres with
  | none => m
  | some table =>
    if f.l2_scan_raises then m
    else
      let keys := (table.filter (fun r => r.metadata_id == metadata_id)).map
        (fun r => r.cache_key)
      keys.foldl (fun acc k => invalidate_key acc k f) m

/-- `MetadataCacheManager.invalidate` (`metadata_cache_manager.py:253-286`).
Python's `if property_name:` is false both for `None` and for the empty
string, so both select the scan-all branch. -/
def MetadataCacheManager.invalidate {V : Type} (m : MetadataCacheManager V)
    (metadata_id : String) (property_name : Option String) (f : Faults) :
    MetadataCacheManager V :=
  match property_name with
  | some pn =>
    if pn.isEmpty then invalidate_all_for_id m metadata_id f
    else invalidate_key m (generate_cache_key metadata_id pn) f
  | none => invalidate_all_for_id m metadata_id f

/-! ## Statistics

Python float division is embedded as exact rational arithmetic. -/

/-- The dictionary returned by `MetadataCacheManager.get_statistics`: either
the raw counters (`total_accesses == 0`) or the counters extended with the
three derived rates and the expected access latency. -/
inductive StatisticsReport where
  | raw (stats : Stats) : StatisticsReport
  | extended (stats : Stats)
      (l1_hit_rate l2_hit_rate miss_rate average_access_time_ms : ℚ) :
      StatisticsReport
deriving DecidableEq

/-- `MetadataCacheManager._calculate_average_access_time`
(`metadata_cache_manager.py:329-349`): `0.0` when there were no accesses,
else the hit-rate-weighted sum of the nominal tier latencies 1ms / 10ms /
300ms. -/
def calculate_average_access_time {V : Type} (m : MetadataCacheManager V) : ℚ :=
  let total := m.stats.total_accesses
  if total = 0 then 0
  else
    let p_l1 : ℚ := (m.stats.l1_hits : ℚ) / (total : ℚ)
    let p_l2 : ℚ := (m.stats.l2_hits : ℚ) / (total : ℚ)
    let p_miss : ℚ := (m.stats.misses : ℚ) / (total : ℚ)
    p_l1 * 1 + p_l2 * 10 + p_miss * 300

/-- `MetadataCacheManager.get_statistics`
(`metadata_cache_manager.py:311-327`): return the raw counter dictionary when
`total_accesses == 0` (no division is performed), else the counters plus the
derived rates and latency. -/
def get_statistics {V : Type} (m : MetadataCacheManager V) : StatisticsReport :=
  let total := m.stats.total_accesses
  if total = 0 then StatisticsReport.raw m.stats
  else
    StatisticsReport.extended m.stats
      ((m.stats.l1_hits : ℚ) / (total : ℚ))
      ((m.stats.l2_hits : ℚ) / (total : ℚ))
      ((m.stats.misses : ℚ) / (total : ℚ))
      (calculate_average_access_time m)

/-- The `l1_hit_rate` field of the report, when present. -/
def reported_l1_hit_rate : StatisticsReport → Option ℚ
  | .raw _ => none
  | .extended _ r _ _ _ => some r

/-- The `l2_hit_rate` field of the report, when present. -/
def reported_l2_hit_rate : StatisticsReport → Option ℚ
  | .raw _ => none
  | .extended _ _ r _ _ => some r

/-- The `miss_rate` field of the report, when present. -/
def reported_miss_rate : StatisticsReport → Option ℚ
  | .raw _ => none
  | .extended _ _ _ r _ => some r

/-! ## Observations and call sequences -/

/-- L1 is present and holds a well-formed serialization of `v` at `k`. -/
def l1_holds {V : Type} [DecidableEq V] (m : MetadataCacheManager V)
    (k : String) (v : V) : Bool :=
  match m.redis with
  | none => false
  | some store => decide (lookupStore k store = some (Cell.good v))

/-- L2 is present and its row at `k` stores a well-formed serialization of
`v`. -/
def l2_holds {V : Type} [DecidableEq V] (m : MetadataCacheManager V)
    (k : String) (v : V) : Bool :=
  match m.postgres with
  | none => false
  | some table =>
    match lookupL2 k table with
    | some r => decide (r.value = Cell.good v)
    | none => false

/-- L1 misses `k`: the tier is absent or stores nothing at `k`. -/
def l1_misses {V : Type} (m : MetadataCacheManager V) (k : String) : Bool :=
  match m.redis with
  | none => true
  | some store => (lookupStore k store).isNone

/-- L2 misses `k`: the tier is absent or has no row at `k`. -/
def l2_misses {V : Type} (m : MetadataCacheManager V) (k : String) : Bool :=
  match m.postgres with
  | none => true
  | some table => (lookupL2 k table).isNone

/-- `k` is stored in no tier (absent tiers count as not storing it). -/
def l1_absent {V : Type} (m : MetadataCacheManager V) (k : String) : Bool :=
  l1_misses m k

/-- `k` has no L2 row (an absent tier counts as having none). -/
def l2_absent {V : Type} (m : MetadataCacheManager V) (k : String) : Bool :=
  l2_misses m k

/-- The cell is corrupt bytes. -/
def Cell.isCorrupt {V : Type} : Cell V → Bool
  | .corrupt => true
  | .good _ => false

/-- Neither tier stores corrupt bytes at `k`. -/
def no_corrupt_at {V : Type} (m : MetadataCacheManager V) (k : String) : Bool :=
  (match m.redis with
   | none => true
   | some store =>
     match lookupStore k store with
     | some cell => !cell.isCorrupt
     | none => true) &&
  (match m.postgres with
   | none => true
   | some table =>
     match lookupL2 k table with
     | some r => !r.value.isCorrupt
     | none => true)

/-- The inputs of one `get` call: metadata id, property name, the modelled
`compute_func` argument, and the backend fault environment of the call. -/
structure CallIn (V : Type) where
  metadata_id : String
  property_name : String
  compute_func : Option (Except Unit V)
  faults : Faults

/-- The state after one `get` call. -/
def step {V : Type} (m : MetadataCacheManager V) (c : CallIn V) :
    MetadataCacheManager V :=
  (m.get c.metadata_id c.property_name c.compute_func c.faults).2

/-- The caller-visible result of one `get` call. -/
def stepResult {V : Type} (m : MetadataCacheManager V) (c : CallIn V) :
    Except Unit (Option V) :=
  (m.get c.metadata_id c.property_name c.compute_func c.faults).1

/-- The state after a sequence of `get` calls. -/
def runGets {V : Type} (m : MetadataCacheManager V) (cs : List (CallIn V)) :
    MetadataCacheManager V :=
  cs.foldl step m

/-- Sum of the three outcome counters. -/
def outcomeSum (s : Stats) : Nat := s.l1_hits + s.l2_hits + s.misses

/-- Every call of the sequence, run from its own pre-state, satisfies `P`. -/
def allCalls {V : Type} (P : MetadataCacheManager V → CallIn V → Bool) :
    MetadataCacheManager V → List (CallIn V) → Bool
  | _, [] => true
  | m, c :: cs => P m c && allCalls P (step m c) cs

/-- Some call of the sequence, run from its own pre-state, satisfies `P`. -/
def someCall {V : Type} (P : MetadataCacheManager V → CallIn V → Bool) :
    MetadataCacheManager V → List (CallIn V) → Bool
  | _, [] => false
  | m, c :: cs => P m c || someCall P (step m c) cs

/-- The call bumps the outcome counters by exactly one: it is an L1 hit, an
L2 hit, or a compute miss, and no deserialization fault double-counts. -/
def call_pure {V : Type} (m : MetadataCacheManager V) (c : CallIn V) : Bool :=
  outcomeSum (step m c).stats == outcomeSum m.stats + 1

/-- The call bumps the outcome counters at most once. -/
def call_bounded {V : Type} (m : MetadataCacheManager V) (c : CallIn V) : Bool :=
  decide (outcomeSum (step m c).stats ≤ outcomeSum m.stats + 1)

/-- The call returns the absent outcome. -/
def isAbsent {V : Type} : Except Unit (Option V) → Bool
  | .ok none => true
  | _ => false

/-- The call returns absent and bumps no outcome counter. -/
def call_pure_absent {V : Type} (m : MetadataCacheManager V) (c : CallIn V) : Bool :=
  isAbsent (stepResult m c) && (outcomeSum (step m c).stats == outcomeSum m.stats)

/-! ## Lazy Field Engine (`metadata_lazy_evaluator.py`)

`LazyProperty` is a descriptor that memoizes its computation in a per-instance
attribute `_lazy_<name>`.  An instance is modelled by its essential (core)
fields, the optional memoization slot (absent attribute = `none`), and the
optional `_lazy_access_log` dictionary.  The compute function reads only the
essential fields (the spec's purity assumption).  The third component of the
result counts invocations of the compute function during the call. -/

/-- An entity instance as seen by one `LazyProperty`: essential state, the
`_lazy_<name>` slot, and the `_lazy_access_log` dict when the instance has
one (`name` maps to the entry's `access_count`). -/
structure LazyInstance (A V : Type) where
  essential : A
  slot : Option V
  access_log : Option (List (String × Nat))
deriving DecidableEq

/-- Dictionary assignment `log[name] = n`. -/
def logSet (name : String) (n : Nat) : List (String × Nat) → List (String × Nat)
  | [] => [(name, n)]
  | (k, v) :: rest =>
    if k = name then (name, n) :: rest else (k, v) :: logSet name n rest

/-- Dictionary lookup `log.get(name)`. -/
def logLookup (name : String) : List (String × Nat) → Option Nat
  | [] => none
  | (k, v) :: rest => if k = name then some v else logLookup name rest

/-- `LazyProperty.__get__` (`metadata_lazy_evaluator.py:70-100`) for an
instance access.  First access computes `func(obj)`, stores it in the slot and
writes an `access_count = 1` log entry when a log dict exists.  A subsequent
access fetches `obj._lazy_access_log.get(name, default)` — when the name is
missing, the default is a fresh dict whose increment is discarded, so the
stored log changes only when the name is already present — and returns the
slot.  The final `Nat` counts how often the bound compute function ran. -/
def LazyProperty.descriptorGet {A V : Type} (func : A → V) (fname : String)
    (obj : LazyInstance A V) : V × LazyInstance A V × Nat :=
  match obj.slot with
  | none =>
    let value := func obj.essential
    let obj' := { obj with slot := some value }
    let obj'' :=
      match obj'.access_log with
      | none => obj'
      | some log => { obj' with access_log := some (logSet fname 1 log) }
    (value, obj'', 1)
  | some value =>
    let obj' :=
      match obj.access_log with
      | none => obj
      | some log =>
        match logLookup fname log with
        | some n => { obj with access_log := some (logSet fname (n + 1) log) }
        | none => obj
    (value, obj', 0)

/-- `n` successive accesses to the same lazy property of the same instance:
the returned values in order, the final instance, and the total number of
compute-function invocations. -/
def descriptorGetN {A V : Type} (func : A → V) (fname : String)
    (obj : LazyInstance A V) : Nat → List V × LazyInstance A V × Nat
  | 0 => ([], obj, 0)
  | n + 1 =>
    let r := LazyProperty.descriptorGet func fname obj
    let rest := descriptorGetN func fname r.2.1 n
    (r.1 :: rest.1, rest.2.1, r.2.2 + rest.2.2)

/-! ## Witness fixtures -/

/-- Witness fixture: a manager with both tiers present and empty. -/
def wmEmpty : MetadataCacheManager Nat :=
  { redis := some [], postgres := some [], l1_capacity := 1000, l1_ttl := none,
    stats := freshStats }

/-- Witness fixture: the L2 row for `("e2", "p2")` holding `5`. -/
def wrec2 : L2Record Nat :=
  ⟨generate_cache_key "e2" "p2", "e2", "p2", Cell.good 5⟩

/-- Witness fixture: empty L1, L2 holding `wrec2`. -/
def wmL2 : MetadataCacheManager Nat :=
  { redis := some [], postgres := some [wrec2], l1_capacity := 1000,
    l1_ttl := none, stats := freshStats }

/-- Witness fixture: both tiers corrupt at the key for `("e1", "p1")`. -/
def wmCorrupt : MetadataCacheManager Nat :=
  { redis := some [(generate_cache_key "e1" "p1", Cell.corrupt)],
    postgres := some [⟨generate_cache_key "e1" "p1", "e1", "p1", Cell.corrupt⟩],
    l1_capacity := 1000, l1_ttl := none, stats := freshStats }

/-- Witness fixture: both tiers holding `7` at the key for `("e1", "p1")`. -/
def wmGood : MetadataCacheManager Nat :=
  { redis := some [(generate_cache_key "e1" "p1", Cell.good 7)],
    postgres := some [⟨generate_cache_key "e1" "p1", "e1", "p1", Cell.good 7⟩],
    l1_capacity := 1000, l1_ttl := none, stats := freshStats }

/-- Witness fixture: a compute-miss call. -/
def wcallCompute : CallIn Nat := ⟨"e1", "p1", some (Except.ok 7), noFaults⟩

/-- Witness fixture: an absent call. -/
def wcallAbsent : CallIn Nat := ⟨"e1", "p1", none, noFaults⟩

/-! ## Store lemmas -/

/-- Sanity anchor: the embedding reproduces the FIPS 180-4 test vector for
the empty message, matching `hashlib.sha256(b"").hexdigest()`. -/
theorem sha256hex_empty_vector : sha256hex "" =
    "e3b0c44298fc1c149afbf4c8996fb92427ae41e4649b934ca495991b7852b855" := by
  rfl

/-- Sanity anchor: the FIPS 180-4 test vector for `"abc"`. -/
theorem sha256hex_abc_vector : sha256hex "abc" =
    "ba7816bf8f01cfea414140de5dae2223b00361a396177a9cb410ff61f20015ad" := by
  rfl

/-- Sanity anchor: the derived cache key for `("e1", "p1")` matches the value
computed by the source implementation. -/
theorem generate_cache_key_vector :
    generate_cache_key "e1" "p1" = "c8132efb089eeeeb" := by
  rfl

@[simp]
theorem lookupStore_setStore_self {V : Type} (k : String) (c : Cell V)
    (s : List (String × Cell V)) : lookupStore k (setStore k c s) = some c := by
  induction s with
  | nil => simp [setStore, lookupStore]
  | cons p rest ih =>
    by_cases h : p.1 = k
    · simp [setStore, lookupStore, h]
    · simp [setStore, lookupStore, h, ih]

theorem lookupStore_setStore_ne {V : Type} (k k' : String) (c : Cell V)
    (s : List (String × Cell V)) (h : k' ≠ k) :
    lookupStore k' (setStore k c s) = lookupStore k' s := by
  induction s with
  | nil => simp [setStore, lookupStore, Ne.symm h]
  | cons p rest ih =>
    by_cases hp : p.1 = k
    · subst hp
      simp [setStore, lookupStore, Ne.symm h]
    · simp [setStore, lookupStore, hp, ih]

@[simp]
theorem lookupStore_deleteStore_self {V : Type} (k : String)
    (s : List (String × Cell V)) : lookupStore k (deleteStore k s) = none := by
  induction s with
  | nil => simp [deleteStore, lookupStore]
  | cons p rest ih =>
    by_cases h : p.1 = k
    · simp [deleteStore, lookupStore, h, ih]
    · simp [deleteStore, lookupStore, h, ih]

theorem lookupStore_deleteStore_of_none {V : Type} (k k' : String)
    (s : List (String × Cell V)) (h : lookupStore k s = none) :
    lookupStore k (deleteStore k' s) = none := by
  induction s with
  | nil => simp [deleteStore, lookupStore]
  | cons p rest ih =>
    by_cases hp : p.1 = k
    · simp [lookupStore, hp] at h
    · have h' : lookupStore k rest = none := by simpa [lookupStore, hp] using h
      by_cases hq : p.1 = k'
      · simpa [deleteStore, hq] using ih h'
      · simp [deleteStore, hq, lookupStore, hp, ih h']

theorem lookupL2_upsertL2_self {V : Type} (k mid pn : String) (c : Cell V)
    (t : List (L2Record V)) :
    ∃ r, lookupL2 k (upsertL2 k mid pn c t) = some r ∧
      r.cache_key = k ∧ r.value = c := by
  induction t with
  | nil => exact ⟨⟨k, mid, pn, c⟩, by simp [upsertL2, lookupL2]⟩
  | cons r rest ih =>
    by_cases h : r.cache_key = k
    · exact ⟨{ r with value := c }, by simp [upsertL2, lookupL2, h]⟩
    · obtain ⟨r', h1, h2, h3⟩ := ih
      exact ⟨r', by simp [upsertL2, lookupL2, h, h1, h2, h3]⟩

@[simp]
theorem lookupL2_deleteL2_self {V : Type} (k : String) (t : List (L2Record V)) :
    lookupL2 k (deleteL2 k t) = none := by
  induction t with
  | nil => simp [deleteL2, lookupL2]
  | cons r rest ih =>
    by_cases h : r.cache_key = k
    · simp [deleteL2, lookupL2, h, ih]
    · simp [deleteL2, lookupL2, h, ih]

theorem lookupL2_deleteL2_of_none {V : Type} (k k' : String)
    (t : List (L2Record V)) (h : lookupL2 k t = none) :
    lookupL2 k (deleteL2 k' t) = none := by
  induction t with
  | nil => simp [deleteL2, lookupL2]
  | cons r rest ih =>
    by_cases hp : r.cache_key = k
    · simp [lookupL2, hp] at h
    · have h' : lookupL2 k rest = none := by simpa [lookupL2, hp] using h
      by_cases hq : r.cache_key = k'
      · simpa [deleteL2, hq] using ih h'
      · simp [deleteL2, hq, lookupL2, hp, ih h']

/-! ## State projection lemmas -/

@[simp]
theorem bumpTotal_redis {V : Type} (m : MetadataCacheManager V) :
    (bumpTotal m).redis = m.redis := rfl

@[simp]
theorem bumpTotal_postgres {V : Type} (m : MetadataCacheManager V) :
    (bumpTotal m).postgres = m.postgres := rfl

@[simp]
theorem bumpTotal_stats {V : Type} (m : MetadataCacheManager V) :
    (bumpTotal m).stats =
      { m.stats with total_accesses := m.stats.total_accesses + 1 } := rfl

@[simp]
theorem bumpL1_redis {V : Type} (m : MetadataCacheManager V) :
    (bumpL1 m).redis = m.redis := rfl

@[simp]
theorem bumpL1_postgres {V : Type} (m : MetadataCacheManager V) :
    (bumpL1 m).postgres = m.postgres := rfl

@[simp]
theorem bumpL1_stats {V : Type} (m : MetadataCacheManager V) :
    (bumpL1 m).stats = { m.stats with l1_hits := m.stats.l1_hits + 1 } := rfl

@[simp]
theorem bumpL2_redis {V : Type} (m : MetadataCacheManager V) :
    (bumpL2 m).redis = m.redis := rfl

@[simp]
theorem bumpL2_postgres {V : Type} (m : MetadataCacheManager V) :
    (bumpL2 m).postgres = m.postgres := rfl

@[simp]
theorem bumpL2_stats {V : Type} (m : MetadataCacheManager V) :
    (bumpL2 m).stats = { m.stats with l2_hits := m.stats.l2_hits + 1 } := rfl

@[simp]
theorem bumpMisses_redis {V : Type} (m : MetadataCacheManager V) :
    (bumpMisses m).redis = m.redis := rfl

@[simp]
theorem bumpMisses_postgres {V : Type} (m : MetadataCacheManager V) :
    (bumpMisses m).postgres = m.postgres := rfl

@[simp]
theorem bumpMisses_stats {V : Type} (m : MetadataCacheManager V) :
    (bumpMisses m).stats = { m.stats with misses := m.stats.misses + 1 } := rfl

@[simp]
theorem bumpEvictions_redis {V : Type} (m : MetadataCacheManager V) :
    (bumpEvictions m).redis = m.redis := rfl

@[simp]
theorem bumpEvictions_postgres {V : Type} (m : MetadataCacheManager V) :
    (bumpEvictions m).postgres = m.postgres := rfl

@[simp]
theorem bumpEvictions_stats {V : Type} (m : MetadataCacheManager V) :
    (bumpEvictions m).stats =
      { m.stats with evictions := m.stats.evictions + 1 } := rfl

/-- `_set_l1` never touches the cold tier or any counter other than
`evictions`. -/
theorem set_l1_frame {V : Type} (m : MetadataCacheManager V) (k : String)
    (v : V) (f : Faults) :
    (set_l1 m k v f).postgres = m.postgres ∧
    (set_l1 m k v f).stats.l1_hits = m.stats.l1_hits ∧
    (set_l1 m k v f).stats.l2_hits = m.stats.l2_hits ∧
    (set_l1 m k v f).stats.misses = m.stats.misses ∧
    (set_l1 m k v f).stats.total_accesses = m.stats.total_accesses := by
  unfold set_l1
  split
  · simp
  · split
    · simp
    · dsimp only
      split <;> simp [bumpEvictions]

/-- With the hot tier present and a non-raising write, `_set_l1` stores the
serialized value under the key. -/
theorem set_l1_store {V : Type} (m : MetadataCacheManager V)
    (store : List (String × Cell V)) (k : String) (v : V) (f : Faults)
    (hr : m.redis = some store) (hf : f.l1_set_raises = false) :
    (set_l1 m k v f).redis = some (setStore k (Cell.good v) store) := by
  unfold set_l1
  rw [hr]
  simp only [hf, Bool.false_eq_true, if_false]
  split <;> simp [bumpEvictions]

/-- `_set_l2` never touches the hot tier or the counters. -/
theorem set_l2_frame {V : Type} (m : MetadataCacheManager V)
    (k mid pn : String) (v : V) (f : Faults) :
    (set_l2 m k mid pn v f).redis = m.redis ∧
    (set_l2 m k mid pn v f).stats = m.stats := by
  unfold set_l2
  rcases hr : m.postgres with _ | table
  · simp
  · by_cases hf : f.l2_set_raises <;> simp [hf]

/-- With the cold tier present and a non-raising write, `_set_l2` upserts the
row. -/
theorem set_l2_table {V : Type} (m : MetadataCacheManager V)
    (table : List (L2Record V)) (k mid pn : String) (v : V) (f : Faults)
    (hp : m.postgres = some table) (hf : f.l2_set_raises = false) :
    (set_l2 m k mid pn v f).postgres =
      some (upsertL2 k mid pn (Cell.good v) table) := by
  unfold set_l2
  rw [hp]
  simp [hf]

/-! ## Phase lemmas -/

/-- The L1 block touches neither tier store nor any counter except
`l1_hits`. -/
theorem l1_phase_frame {V : Type} (m : MetadataCacheManager V) (k : String)
    (f : Faults) :
    (l1_phase m k f).2.redis = m.redis ∧
    (l1_phase m k f).2.postgres = m.postgres ∧
    (l1_phase m k f).2.stats.l2_hits = m.stats.l2_hits ∧
    (l1_phase m k f).2.stats.misses = m.stats.misses ∧
    (l1_phase m k f).2.stats.total_accesses = m.stats.total_accesses := by
  unfold l1_phase
  split
  · simp
  · split
    · simp
    · split
      · simp
      · dsimp only
        split <;> simp [bumpL1]

/-- The L2 block never touches the cold tier store nor any counter except
`l2_hits` and (through promotion) `evictions`. -/
theorem l2_phase_frame {V : Type} (m : MetadataCacheManager V) (k : String)
    (f : Faults) :
    (l2_phase m k f).2.postgres = m.postgres ∧
    (l2_phase m k f).2.stats.l1_hits = m.stats.l1_hits ∧
    (l2_phase m k f).2.stats.misses = m.stats.misses ∧
    (l2_phase m k f).2.stats.total_accesses = m.stats.total_accesses := by
  unfold l2_phase
  split
  · simp
  · split
    · simp
    · split
      · simp
      · dsimp only
        split
        · rename_i v hv
          have h := set_l1_frame (bumpL2 m) k v f
          simp only [bumpL2] at h ⊢
          exact ⟨h.1, h.2.1, h.2.2.2.1, h.2.2.2.2⟩
        · simp [bumpL2]

/-- A tier miss (or absent hot tier, or raising backend) leaves the state
untouched and falls through. -/
theorem l1_phase_miss {V : Type} (m : MetadataCacheManager V) (k : String)
    (f : Faults) (h : l1_misses m k = true) : l1_phase m k f = (none, m) := by
  unfold l1_phase
  unfold l1_misses at h
  split
  · rfl
  · rename_i store heq
    rw [heq] at h
    simp only [Option.isNone_iff_eq_none] at h
    split
    · rfl
    · simp [h]

/-- A well-formed L1 hit returns the value and bumps `l1_hits`. -/
theorem l1_phase_hit {V : Type} (m : MetadataCacheManager V)
    (store : List (String × Cell V)) (k : String) (v : V) (f : Faults)
    (hr : m.redis = some store) (hk : lookupStore k store = some (Cell.good v))
    (hf : f.l1_get_raises = false) : l1_phase m k f = (some v, bumpL1 m) := by
  unfold l1_phase
  rw [hr]
  simp [hf, hk, Cell.deserialize]

/-- A corrupt L1 hit bumps `l1_hits`, then the `json.loads` failure is caught
and the call falls through with no value. -/
theorem l1_phase_corrupt {V : Type} (m : MetadataCacheManager V)
    (store : List (String × Cell V)) (k : String) (f : Faults)
    (hr : m.redis = some store) (hk : lookupStore k store = some Cell.corrupt)
    (hf : f.l1_get_raises = false) : l1_phase m k f = (none, bumpL1 m) := by
  unfold l1_phase
  rw [hr]
  simp [hf, hk, Cell.deserialize]

/-- An L2 miss (or absent cold tier, or raising backend) leaves the state
untouched and falls through. -/
theorem l2_phase_miss {V : Type} (m : MetadataCacheManager V) (k : String)
    (f : Faults) (h : l2_misses m k = true) : l2_phase m k f = (none, m) := by
  unfold l2_phase
  unfold l2_misses at h
  split
  · rfl
  · rename_i table heq
    rw [heq] at h
    simp only [Option.isNone_iff_eq_none] at h
    split
    · rfl
    · simp [h]

/-- A well-formed L2 hit returns the value, bumps `l2_hits` and promotes the
value into L1. -/
theorem l2_phase_hit {V : Type} (m : MetadataCacheManager V)
    (table : List (L2Record V)) (k : String) (r : L2Record V) (v : V)
    (f : Faults) (hp : m.postgres = some table) (hk : lookupL2 k table = some r)
    (hv : r.value = Cell.good v) (hf : f.l2_query_raises = false) :
    l2_phase m k f = (some v, set_l1 (bumpL2 m) k v f) := by
  unfold l2_phase
  rw [hp]
  simp [hf, hk, hv, Cell.deserialize]

/-- A corrupt L2 row bumps `l2_hits`, then the `json.loads` failure is caught
and the call falls through with no value and no promotion. -/
theorem l2_phase_corrupt {V : Type} (m : MetadataCacheManager V)
    (table : List (L2Record V)) (k : String) (r : L2Record V) (f : Faults)
    (hp : m.postgres = some table) (hk : lookupL2 k table = some r)
    (hv : r.value = Cell.corrupt) (hf : f.l2_query_raises = false) :
    l2_phase m k f = (none, bumpL2 m) := by
  unfold l2_phase
  rw [hp]
  simp [hf, hk, hv, Cell.deserialize]

/-! ## Lemmas about `get` -/

/-- Every `get` call increments `total_accesses` by exactly one, regardless
of outcome. -/
theorem get_total {V : Type} (m : MetadataCacheManager V)
    (mid pn : String) (cf : Option (Except Unit V)) (f : Faults) :
    (m.get mid pn cf f).2.stats.total_accesses = m.stats.total_accesses + 1 := by
  unfold MetadataCacheManager.get
  rcases h1 : l1_phase (bumpTotal m) (generate_cache_key mid pn) f with ⟨o1, m2⟩
  have e1 : m2.stats.total_accesses = m.stats.total_accesses + 1 := by
    have h := (l1_phase_frame (bumpTotal m) (generate_cache_key mid pn) f).2.2.2.2
    rw [h1] at h
    simpa [bumpTotal] using h
  cases o1 with
  | some v => exact e1
  | none =>
    dsimp only
    rcases h2 : l2_phase m2 (generate_cache_key mid pn) f with ⟨o2, m3⟩
    have e2 : m3.stats.total_accesses = m.stats.total_accesses + 1 := by
      have h := (l2_phase_frame m2 (generate_cache_key mid pn) f).2.2.2
      rw [h2] at h
      rw [h, e1]
    cases o2 with
    | some v => exact e2
    | none =>
      dsimp only
      cases cf with
      | none => exact e2
      | some c =>
        cases c with
        | error e => simpa [bumpMisses] using e2
        | ok v =>
          have h5 := (set_l1_frame (bumpMisses m3) (generate_cache_key mid pn) v f).2.2.2.2
          have h6 := (set_l2_frame
            (set_l1 (bumpMisses m3) (generate_cache_key mid pn) v f)
            (generate_cache_key mid pn) mid pn v f).2
          dsimp only
          rw [h6, h5]
          simpa [bumpMisses] using e2

/-- `step` form of `get_total`. -/
theorem step_total {V : Type} (m : MetadataCacheManager V) (c : CallIn V) :
    (step m c).stats.total_accesses = m.stats.total_accesses + 1 :=
  get_total m c.metadata_id c.property_name c.compute_func c.faults

/-- Over a call sequence, `total_accesses` grows by exactly the number of
calls. -/
theorem run_total {V : Type} (cs : List (CallIn V)) (m : MetadataCacheManager V) :
    (runGets m cs).stats.total_accesses = m.stats.total_accesses + cs.length := by
  induction cs generalizing m with
  | nil => simp [runGets]
  | cons c rest ih =>
    have h : runGets m (c :: rest) = runGets (step m c) rest := rfl
    rw [h, ih, step_total]
    simp [List.length_cons]
    omega

/-- A pure-outcome run grows the outcome counters by exactly the number of
calls. -/
theorem run_pure_sum {V : Type} (cs : List (CallIn V)) (m : MetadataCacheManager V)
    (h : allCalls call_pure m cs = true) :
    outcomeSum (runGets m cs).stats = outcomeSum m.stats + cs.length := by
  induction cs generalizing m with
  | nil => simp [runGets]
  | cons c rest ih =>
    rw [allCalls, Bool.and_eq_true] at h
    have hc : outcomeSum (step m c).stats = outcomeSum m.stats + 1 := by
      have := h.1
      unfold call_pure at this
      simpa using this
    have hrun : runGets m (c :: rest) = runGets (step m c) rest := rfl
    rw [hrun, ih (step m c) h.2, hc]
    simp [List.length_cons]
    omega

/-- A bounded run grows the outcome counters by at most the number of
calls. -/
theorem run_sum_le {V : Type} (cs : List (CallIn V)) (m : MetadataCacheManager V)
    (h : allCalls call_bounded m cs = true) :
    outcomeSum (runGets m cs).stats ≤ outcomeSum m.stats + cs.length := by
  induction cs generalizing m with
  | nil => simp [runGets]
  | cons c rest ih =>
    rw [allCalls, Bool.and_eq_true] at h
    have hc : outcomeSum (step m c).stats ≤ outcomeSum m.stats + 1 := by
      have := h.1
      unfold call_bounded at this
      exact of_decide_eq_true this
    have hrun : runGets m (c :: rest) = runGets (step m c) rest := rfl
    rw [hrun]
    calc outcomeSum (runGets (step m c) rest).stats
        ≤ outcomeSum (step m c).stats + rest.length := ih (step m c) h.2
      _ ≤ outcomeSum m.stats + 1 + rest.length := by omega
      _ = outcomeSum m.stats + (c :: rest).length := by simp [List.length_cons]; omega

/-- A bounded run containing an absent call that bumps nothing grows the
outcome counters by strictly less than the number of calls. -/
theorem run_sum_lt {V : Type} (cs : List (CallIn V)) (m : MetadataCacheManager V)
    (hb : allCalls call_bounded m cs = true)
    (ha : someCall call_pure_absent m cs = true) :
    outcomeSum (runGets m cs).stats + 1 ≤ outcomeSum m.stats + cs.length := by
  induction cs generalizing m with
  | nil => simp [someCall] at ha
  | cons c rest ih =>
    rw [allCalls, Bool.and_eq_true] at hb
    rw [someCall, Bool.or_eq_true] at ha
    have hrun : runGets m (c :: rest) = runGets (step m c) rest := rfl
    rw [hrun]
    rcases ha with ha | ha
    · have hc : outcomeSum (step m c).stats = outcomeSum m.stats := by
        unfold call_pure_absent at ha
        rw [Bool.and_eq_true] at ha
        simpa using ha.2
      have := run_sum_le rest (step m c) hb.2
      rw [hc] at this
      simp [List.length_cons]
      omega
    · have hc : outcomeSum (step m c).stats ≤ outcomeSum m.stats + 1 :=
        of_decide_eq_true hb.1
      have := ih (step m c) hb.2 ha
      simp [List.length_cons]
      omega

/-- If the hot tier holds nothing corrupt at the key, an L1 block that yields
no value leaves the manager state untouched. -/
theorem l1_phase_clean_none {V : Type} (m : MetadataCacheManager V) (k : String)
    (f : Faults)
    (hnc : (match m.redis with
            | none => true
            | some store =>
              match lookupStore k store with
              | some cell => !cell.isCorrupt
              | none => true) = true)
    (h : (l1_phase m k f).1 = none) : l1_phase m k f = (none, m) := by
  unfold l1_phase at h ⊢
  split at h
  · rfl
  · rename_i store heq
    rw [heq] at hnc
    dsimp only at hnc
    split at h
    · simp [*]
    · split at h
      · simp [*]
      · rename_i cell hcell
        rw [hcell] at hnc
        cases cell with
        | good v => simp [Cell.deserialize] at h
        | corrupt => simp [Cell.isCorrupt] at hnc

/-- If the cold tier holds nothing corrupt at the key, an L2 block that
yields no value leaves the manager state untouched. -/
theorem l2_phase_clean_none {V : Type} (m : MetadataCacheManager V) (k : String)
    (f : Faults)
    (hnc : (match m.postgres with
            | none => true
            | some table =>
              match lookupL2 k table with
              | some r => !r.value.isCorrupt
              | none => true) = true)
    (h : (l2_phase m k f).1 = none) : l2_phase m k f = (none, m) := by
  unfold l2_phase at h ⊢
  split at h
  · rfl
  · rename_i table heq
    rw [heq] at hnc
    dsimp only at hnc
    split at h
    · simp [*]
    · split at h
      · simp [*]
      · rename_i r hrow
        rw [hrow] at hnc
        dsimp only at hnc
        rcases hv : r.value with v | _
        · rw [hv] at h
          simp [Cell.deserialize] at h
        · simp [Cell.isCorrupt, hv] at hnc

/-- An absent outcome on a call whose key meets no corrupt bytes leaves every
counter except `total_accesses` unchanged: the post-state is exactly the
pre-state with `total_accesses` bumped. -/
theorem get_absent_state {V : Type} (m : MetadataCacheManager V)
    (mid pn : String) (cf : Option (Except Unit V)) (f : Faults)
    (hnc : no_corrupt_at m (generate_cache_key mid pn) = true)
    (habs : (m.get mid pn cf f).1 = Except.ok none) :
    (m.get mid pn cf f).2 = bumpTotal m := by
  unfold no_corrupt_at at hnc
  rw [Bool.and_eq_true] at hnc
  unfold MetadataCacheManager.get at habs ⊢
  rcases h1 : l1_phase (bumpTotal m) (generate_cache_key mid pn) f with ⟨o1, m2⟩
  rw [h1] at habs
  cases o1 with
  | some v => simp at habs
  | none =>
    have hm2 : m2 = bumpTotal m := by
      have hc : (l1_phase (bumpTotal m) (generate_cache_key mid pn) f).1 = none := by
        rw [h1]
      have hclean := l1_phase_clean_none (bumpTotal m)
        (generate_cache_key mid pn) f hnc.1 hc
      rw [h1] at hclean
      exact (Prod.mk.injEq _ _ _ _).mp hclean |>.2
    subst hm2
    dsimp only at habs ⊢
    rcases h2 : l2_phase (bumpTotal m) (generate_cache_key mid pn) f with ⟨o2, m3⟩
    rw [h2] at habs
    cases o2 with
    | some v => simp at habs
    | none =>
      have hm3 : m3 = bumpTotal m := by
        have hc : (l2_phase (bumpTotal m) (generate_cache_key mid pn) f).1 = none := by
          rw [h2]
        have hclean := l2_phase_clean_none (bumpTotal m)
          (generate_cache_key mid pn) f hnc.2 hc
        rw [h2] at hclean
        exact (Prod.mk.injEq _ _ _ _).mp hclean |>.2
      subst hm3
      dsimp only at habs ⊢
      cases cf with
      | none => rfl
      | some c =>
        cases c with
        | error e => simp at habs
        | ok v => simp at habs

/-! ## Claim theorems -/

/-- C8: every call to `get` terminates in exactly one of three caller-visible
outcomes — a returned value, a returned absent (`None`), or a propagated
`compute_func` exception — for every manager state and every backend fault
configuration; a `None` return can only happen with `compute_func=None`, and
an escaping exception can only be one raised by `compute_func`, so tier
backend failures never surface to the caller as a distinct error. -/
theorem c8_outcome_trichotomy {V : Type} (m : MetadataCacheManager V)
    (mid pn : String) (cf : Option (Except Unit V)) (f : Faults) :
    (∃ v, (m.get mid pn cf f).1 = Except.ok (some v)) ∨
    ((m.get mid pn cf f).1 = Except.ok none ∧ cf = none) ∨
    ((m.get mid pn cf f).1 = Except.error () ∧ cf = some (Except.error ())) := by
  unfold MetadataCacheManager.get
  rcases h1 : l1_phase (bumpTotal m) (generate_cache_key mid pn) f with ⟨o1, m2⟩
  cases o1 with
  | some v => exact Or.inl ⟨v, rfl⟩
  | none =>
    dsimp only
    rcases h2 : l2_phase m2 (generate_cache_key mid pn) f with ⟨o2, m3⟩
    cases o2 with
    | some v => exact Or.inl ⟨v, rfl⟩
    | none =>
      dsimp only
      cases cf with
      | none => exact Or.inr (Or.inl ⟨rfl, rfl⟩)
      | some c =>
        cases c with
        | error e => cases e; exact Or.inr (Or.inr ⟨rfl, rfl⟩)
        | ok v => exact Or.inl ⟨v, rfl⟩

/-- C1: for every metadata id and property name, if both tiers miss (or are
absent) and a `compute_func` is supplied, `get` invokes it, increments the
`misses` counter by exactly 1, writes the computed value to both L1 and L2
(whenever the respective tier is present), and returns the computed value. -/
theorem c1_compute_miss_populates {V : Type} [DecidableEq V]
    (m : MetadataCacheManager V) (mid pn : String) (v : V)
    (h1 : l1_misses m (generate_cache_key mid pn) = true)
    (h2 : l2_misses m (generate_cache_key mid pn) = true) :
    (m.get mid pn (some (Except.ok v)) noFaults).1 = Except.ok (some v) ∧
    (m.get mid pn (some (Except.ok v)) noFaults).2.stats.misses = m.stats.misses + 1 ∧
    (m.redis.isSome = true →
      l1_holds (m.get mid pn (some (Except.ok v)) noFaults).2
        (generate_cache_key mid pn) v = true) ∧
    (m.postgres.isSome = true →
      l2_holds (m.get mid pn (some (Except.ok v)) noFaults).2
        (generate_cache_key mid pn) v = true) := by
  have hm1 : l1_misses (bumpTotal m) (generate_cache_key mid pn) = true := by
    unfold l1_misses at h1 ⊢
    simpa using h1
  have hm2 : l2_misses (bumpTotal m) (generate_cache_key mid pn) = true := by
    unfold l2_misses at h2 ⊢
    simpa using h2
  have ph1 : l1_phase (bumpTotal m) (generate_cache_key mid pn) noFaults =
      (none, bumpTotal m) := l1_phase_miss _ _ _ hm1
  have ph2 : l2_phase (bumpTotal m) (generate_cache_key mid pn) noFaults =
      (none, bumpTotal m) := l2_phase_miss _ _ _ hm2
  unfold MetadataCacheManager.get
  rw [ph1]
  dsimp only
  rw [ph2]
  dsimp only
  refine ⟨rfl, ?_, ?_, ?_⟩
  · have hs1 := (set_l1_frame (bumpMisses (bumpTotal m))
      (generate_cache_key mid pn) v noFaults).2.2.2.1
    have hs2 := (set_l2_frame
      (set_l1 (bumpMisses (bumpTotal m)) (generate_cache_key mid pn) v noFaults)
      (generate_cache_key mid pn) mid pn v noFaults).2
    rw [hs2, hs1]
    simp [bumpMisses, bumpTotal]
  · intro hred
    rcases Option.isSome_iff_exists.mp hred with ⟨s, hs⟩
    have hb : (bumpMisses (bumpTotal m)).redis = some s := by
      simp [hs]
    have hst := set_l1_store (bumpMisses (bumpTotal m)) s
      (generate_cache_key mid pn) v noFaults hb rfl
    have hr2 := (set_l2_frame
      (set_l1 (bumpMisses (bumpTotal m)) (generate_cache_key mid pn) v noFaults)
      (generate_cache_key mid pn) mid pn v noFaults).1
    unfold l1_holds
    rw [hr2, hst]
    simp
  · intro hpg
    rcases Option.isSome_iff_exists.mp hpg with ⟨t, ht⟩
    have hpb : (set_l1 (bumpMisses (bumpTotal m)) (generate_cache_key mid pn)
        v noFaults).postgres = some t := by
      rw [(set_l1_frame (bumpMisses (bumpTotal m))
        (generate_cache_key mid pn) v noFaults).1]
      simp [ht]
    have htb := set_l2_table
      (set_l1 (bumpMisses (bumpTotal m)) (generate_cache_key mid pn) v noFaults)
      t (generate_cache_key mid pn) mid pn v noFaults hpb rfl
    obtain ⟨r, hr, hk, hv⟩ := lookupL2_upsertL2_self
      (generate_cache_key mid pn) mid pn (Cell.good v) t
    simp [l2_holds, htb, hr, hv]

/-- C2: for every key present in L2 (as a well-formed serialization) but not
in L1, `get` returns the L2 value, increments the `l2_hits` counter by 1, and
afterward L1 holds that key with the same value (promotion); every entry the
hot tier held before the call is still there afterwards — the manager never
deletes L1 entries during promotion. -/
theorem c2_l2_hit_promotes {V : Type} [DecidableEq V]
    (m : MetadataCacheManager V) (mid pn : String)
    (store : List (String × Cell V)) (table : List (L2Record V))
    (r : L2Record V) (v : V) (cf : Option (Except Unit V))
    (hr : m.redis = some store)
    (hmiss : lookupStore (generate_cache_key mid pn) store = none)
    (hp : m.postgres = some table)
    (hrow : lookupL2 (generate_cache_key mid pn) table = some r)
    (hval : r.value = Cell.good v) :
    (m.get mid pn cf noFaults).1 = Except.ok (some v) ∧
    (m.get mid pn cf noFaults).2.stats.l2_hits = m.stats.l2_hits + 1 ∧
    l1_holds (m.get mid pn cf noFaults).2 (generate_cache_key mid pn) v = true ∧
    (∀ k' c', lookupStore k' store = some c' →
      ∃ store', (m.get mid pn cf noFaults).2.redis = some store' ∧
        lookupStore k' store' = some c') := by
  have hm1 : l1_misses (bumpTotal m) (generate_cache_key mid pn) = true := by
    unfold l1_misses
    simp [hr, hmiss]
  have ph1 : l1_phase (bumpTotal m) (generate_cache_key mid pn) noFaults =
      (none, bumpTotal m) := l1_phase_miss _ _ _ hm1
  have hpb : (bumpTotal m).postgres = some table := by simp [hp]
  have ph2 := l2_phase_hit (bumpTotal m) table (generate_cache_key mid pn)
    r v noFaults hpb hrow hval rfl
  have hrb : (bumpL2 (bumpTotal m)).redis = some store := by simp [hr]
  have hst := set_l1_store (bumpL2 (bumpTotal m)) store
    (generate_cache_key mid pn) v noFaults hrb rfl
  unfold MetadataCacheManager.get
  rw [ph1]
  dsimp only
  rw [ph2]
  dsimp only
  refine ⟨rfl, ?_, ?_, ?_⟩
  · have hs1 := (set_l1_frame (bumpL2 (bumpTotal m))
      (generate_cache_key mid pn) v noFaults).2.2.1
    rw [hs1]
    simp [bumpL2, bumpTotal]
  · unfold l1_holds
    rw [hst]
    simp
  · intro k' c' hc'
    refine ⟨setStore (generate_cache_key mid pn) (Cell.good v) store, hst, ?_⟩
    have hne : k' ≠ generate_cache_key mid pn := by
      intro hEq
      rw [hEq, hmiss] at hc'
      exact Option.noConfusion hc'
    rw [lookupStore_setStore_ne _ _ _ _ hne]
    exact hc'

/-- C5 (amended): if a tier returns bytes that fail to deserialize, `get`
does not raise and the fault is survived: the call falls through to the next
tier or to `compute_func` (self-healing recompute) — but the faulted tier's
hit counter IS incremented, because the source increments it before
`json.loads` runs.  Shown here with both tiers corrupt at the key: the call
still returns the computed value, and all of `l1_hits`, `l2_hits`, `misses`
are incremented. -/
theorem c5_deserialization_fault_falls_through {V : Type} (m : MetadataCacheManager V)
    (mid pn : String) (store : List (String × Cell V)) (table : List (L2Record V))
    (r : L2Record V) (v : V)
    (hr : m.redis = some store)
    (hk : lookupStore (generate_cache_key mid pn) store = some Cell.corrupt)
    (hp : m.postgres = some table)
    (hrow : lookupL2 (generate_cache_key mid pn) table = some r)
    (hval : r.value = Cell.corrupt) :
    (m.get mid pn (some (Except.ok v)) noFaults).1 = Except.ok (some v) ∧
    (m.get mid pn (some (Except.ok v)) noFaults).2.stats.l1_hits = m.stats.l1_hits + 1 ∧
    (m.get mid pn (some (Except.ok v)) noFaults).2.stats.l2_hits = m.stats.l2_hits + 1 ∧
    (m.get mid pn (some (Except.ok v)) noFaults).2.stats.misses = m.stats.misses + 1 := by
  have hrb : (bumpTotal m).redis = some store := by simp [hr]
  have ph1 := l1_phase_corrupt (bumpTotal m) store (generate_cache_key mid pn)
    noFaults hrb hk rfl
  have hpb : (bumpL1 (bumpTotal m)).postgres = some table := by simp [hp]
  have ph2 := l2_phase_corrupt (bumpL1 (bumpTotal m)) table
    (generate_cache_key mid pn) r noFaults hpb hrow hval rfl
  unfold MetadataCacheManager.get
  rw [ph1]
  dsimp only
  rw [ph2]
  dsimp only
  have hs1 := set_l1_frame (bumpMisses (bumpL2 (bumpL1 (bumpTotal m))))
    (generate_cache_key mid pn) v noFaults
  have hs2 := (set_l2_frame
    (set_l1 (bumpMisses (bumpL2 (bumpL1 (bumpTotal m))))
      (generate_cache_key mid pn) v noFaults)
    (generate_cache_key mid pn) mid pn v noFaults).2
  refine ⟨rfl, ?_, ?_, ?_⟩
  · rw [hs2, hs1.2.1]
    simp [bumpMisses, bumpL2, bumpL1, bumpTotal]
  · rw [hs2, hs1.2.2.1]
    simp [bumpMisses, bumpL2, bumpL1, bumpTotal]
  · rw [hs2, hs1.2.2.2.1]
    simp [bumpMisses, bumpL2, bumpL1, bumpTotal]

theorem l1_delete_frame {V : Type} (m : MetadataCacheManager V) (k : String)
    (f : Faults) :
    (l1_delete_step m k f).stats = m.stats ∧
    (l1_delete_step m k f).postgres = m.postgres := by
  unfold l1_delete_step
  split
  · simp
  · split <;> simp

theorem l2_delete_frame {V : Type} (m : MetadataCacheManager V) (k : String)
    (f : Faults) :
    (l2_delete_step m k f).stats = m.stats ∧
    (l2_delete_step m k f).redis = m.redis := by
  unfold l2_delete_step
  split
  · simp
  · split <;> simp

theorem l1_delete_removes {V : Type} (m : MetadataCacheManager V) (k : String)
    (f : Faults) (hf : f.l1_delete_raises = false) :
    l1_absent (l1_delete_step m k f) k = true := by
  rcases heq : m.redis with _ | store <;>
    simp [l1_delete_step, l1_absent, l1_misses, heq, hf]

theorem l2_delete_removes {V : Type} (m : MetadataCacheManager V) (k : String)
    (f : Faults) (hf : f.l2_delete_raises = false) :
    l2_absent (l2_delete_step m k f) k = true := by
  rcases heq : m.postgres with _ | table <;>
    simp [l2_delete_step, l2_absent, l2_misses, heq, hf]

theorem l1_delete_preserves_absent {V : Type} (m : MetadataCacheManager V)
    (k k' : String) (f : Faults) (h : l1_absent m k = true) :
    l1_absent (l1_delete_step m k' f) k = true := by
  rcases heq : m.redis with _ | store
  · simpa [l1_delete_step, heq] using h
  · have h' : lookupStore k store = none := by
      simpa [l1_absent, l1_misses, heq] using h
    by_cases hf2 : f.l1_delete_raises = true
    · simpa [l1_delete_step, heq, hf2] using h
    · simp [l1_delete_step, heq, hf2, l1_absent, l1_misses,
        lookupStore_deleteStore_of_none _ k' _ h']

theorem l2_delete_preserves_absent {V : Type} (m : MetadataCacheManager V)
    (k k' : String) (f : Faults) (h : l2_absent m k = true) :
    l2_absent (l2_delete_step m k' f) k = true := by
  rcases heq : m.postgres with _ | table
  · simpa [l2_delete_step, heq] using h
  · have h' : lookupL2 k table = none := by
      simpa [l2_absent, l2_misses, heq] using h
    by_cases hf2 : f.l2_delete_raises = true
    · simpa [l2_delete_step, heq, hf2] using h
    · simp [l2_delete_step, heq, hf2, l2_absent, l2_misses,
        lookupL2_deleteL2_of_none _ k' _ h']

theorem invalidate_key_stats {V : Type} (m : MetadataCacheManager V)
    (k : String) (f : Faults) : (invalidate_key m k f).stats = m.stats := by
  unfold invalidate_key
  rw [(l2_delete_frame _ _ _).1, (l1_delete_frame _ _ _).1]

theorem invalidate_key_removes {V : Type} (m : MetadataCacheManager V)
    (k : String) :
    l1_absent (invalidate_key m k noFaults) k = true ∧
    l2_absent (invalidate_key m k noFaults) k = true := by
  unfold invalidate_key
  constructor
  · have h1 := l1_delete_removes m k noFaults rfl
    unfold l1_absent l1_misses at h1 ⊢
    rw [(l2_delete_frame (l1_delete_step m k noFaults) k noFaults).2]
    exact h1
  · exact l2_delete_removes _ k noFaults rfl

theorem invalidate_key_preserves_absent {V : Type} (m : MetadataCacheManager V)
    (k k' : String) (f : Faults) :
    (l1_absent m k = true → l1_absent (invalidate_key m k' f) k = true) ∧
    (l2_absent m k = true → l2_absent (invalidate_key m k' f) k = true) := by
  unfold invalidate_key
  constructor
  · intro h
    have h1 := l1_delete_preserves_absent m k k' f h
    unfold l1_absent l1_misses at h1 ⊢
    rw [(l2_delete_frame (l1_delete_step m k' f) k' f).2]
    exact h1
  · intro h
    refine l2_delete_preserves_absent _ k k' f ?_
    unfold l2_absent l2_misses at h ⊢
    rw [(l1_delete_frame m k' f).2]
    exact h

theorem fold_invalidate_stats {V : Type} (keys : List String)
    (m : MetadataCacheManager V) (f : Faults) :
    (keys.foldl (fun acc k => invalidate_key acc k f) m).stats = m.stats := by
  induction keys generalizing m with
  | nil => rfl
  | cons k rest ih =>
    rw [List.foldl_cons, ih, invalidate_key_stats]

theorem fold_invalidate_preserves_absent {V : Type} (keys : List String)
    (m : MetadataCacheManager V) (k : String) (f : Faults) :
    (l1_absent m k = true →
      l1_absent (keys.foldl (fun acc kk => invalidate_key acc kk f) m) k = true) ∧
    (l2_absent m k = true →
      l2_absent (keys.foldl (fun acc kk => invalidate_key acc kk f) m) k = true) := by
  induction keys generalizing m with
  | nil => exact ⟨id, id⟩
  | cons kk rest ih =>
    constructor
    · intro h
      rw [List.foldl_cons]
      exact (ih _).1 ((invalidate_key_preserves_absent m k kk f).1 h)
    · intro h
      rw [List.foldl_cons]
      exact (ih _).2 ((invalidate_key_preserves_absent m k kk f).2 h)

theorem fold_invalidate_removes {V : Type} (keys : List String)
    (m : MetadataCacheManager V) (k : String) (hk : k ∈ keys) :
    l1_absent (keys.foldl (fun acc kk => invalidate_key acc kk noFaults) m) k = true ∧
    l2_absent (keys.foldl (fun acc kk => invalidate_key acc kk noFaults) m) k = true := by
  induction keys generalizing m with
  | nil => cases hk
  | cons kk rest ih =>
    rw [List.foldl_cons]
    rcases List.mem_cons.mp hk with h | h
    · subst h
      constructor
      · exact (fold_invalidate_preserves_absent rest _ k noFaults).1
          (invalidate_key_removes m k).1
      · exact (fold_invalidate_preserves_absent rest _ k noFaults).2
          (invalidate_key_removes m k).2
    · exact ih _ h

theorem invalidate_all_stats {V : Type} (m : MetadataCacheManager V)
    (mid : String) (f : Faults) :
    (invalidate_all_for_id m mid f).stats = m.stats := by
  unfold invalidate_all_for_id
  split
  · rfl
  · split
    · rfl
    · exact fold_invalidate_stats _ m f

theorem invalidate_stats {V : Type} (m : MetadataCacheManager V)
    (mid : String) (pn : Option String) (f : Faults) :
    (m.invalidate mid pn f).stats = m.stats := by
  unfold MetadataCacheManager.invalidate
  split
  · split
    · exact invalidate_all_stats m mid f
    · exact invalidate_key_stats _ _ _
  · exact invalidate_all_stats m mid f

theorem invalidate_all_removes_scanned {V : Type} (m : MetadataCacheManager V)
    (mid : String) (table : List (L2Record V)) (r : L2Record V)
    (hp : m.postgres = some table) (hr : r ∈ table)
    (hid : r.metadata_id = mid) :
    l1_absent (invalidate_all_for_id m mid noFaults) r.cache_key = true ∧
    l2_absent (invalidate_all_for_id m mid noFaults) r.cache_key = true := by
  unfold invalidate_all_for_id
  rw [hp]
  dsimp only
  refine fold_invalidate_removes _ m r.cache_key ?_
  refine List.mem_map_of_mem _ ?_
  refine List.mem_filter.mpr ⟨hr, ?_⟩
  simp [hid]

/-- C6 (amended): `invalidate(entityId, propertyName)` with a nonempty
property name removes that key from both tiers; `invalidate(entityId)` with
no property name removes from both tiers every key the cold tier records for
that entity (keys present only in L1 — e.g. after an L2 write failure, or
when L2 is absent — are not discovered); and invalidate never changes the
statistics counters or otherwise reports failure to its caller, for every
fault configuration. -/
theorem c6_invalidate_scoped {V : Type} :
    (∀ (m : MetadataCacheManager V) (mid pn : String), pn ≠ "" →
      l1_absent (m.invalidate mid (some pn) noFaults)
        (generate_cache_key mid pn) = true ∧
      l2_absent (m.invalidate mid (some pn) noFaults)
        (generate_cache_key mid pn) = true) ∧
    (∀ (m : MetadataCacheManager V) (mid : String) (table : List (L2Record V))
        (r : L2Record V), m.postgres = some table → r ∈ table →
        r.metadata_id = mid →
      l1_absent (m.invalidate mid none noFaults) r.cache_key = true ∧
      l2_absent (m.invalidate mid none noFaults) r.cache_key = true) ∧
    (∀ (m : MetadataCacheManager V) (mid : String) (pn : Option String)
        (f : Faults), (m.invalidate mid pn f).stats = m.stats) := by
  refine ⟨?_, ?_, ?_⟩
  · intro m mid pn hpn
    have hne : pn.isEmpty = false := by
      rcases h : pn.isEmpty with _ | _
      · rfl
      · exact absurd ((String.isEmpty_iff pn).mp h) hpn
    unfold MetadataCacheManager.invalidate
    dsimp only
    rw [hne]
    simp only [Bool.false_eq_true, if_false]
    exact invalidate_key_removes m (generate_cache_key mid pn)
  · intro m mid table r hp hr hid
    unfold MetadataCacheManager.invalidate
    exact invalidate_all_removes_scanned m mid table r hp hr hid
  · intro m mid pn f
    exact invalidate_stats m mid pn f

/-- C5 counterexample: with L1 holding corrupt bytes at the key and no L2,
`get` self-heals by recomputing (returns the computed value 7), but the
`l1_hits` counter IS incremented (from 0 to 1) — refuting the claim that the
faulted tier's hit counter is not incremented. -/
theorem c5_counterexample_corrupt_hit_counted :
    ((({ redis := some [(generate_cache_key "e1" "p1", Cell.corrupt)],
         postgres := none, l1_capacity := 1000, l1_ttl := none,
         stats := freshStats } : MetadataCacheManager Nat).get
        "e1" "p1" (some (Except.ok 7)) noFaults).1 = Except.ok (some 7)) ∧
    ((({ redis := some [(generate_cache_key "e1" "p1", Cell.corrupt)],
         postgres := none, l1_capacity := 1000, l1_ttl := none,
         stats := freshStats } : MetadataCacheManager Nat).get
        "e1" "p1" (some (Except.ok 7)) noFaults).2.stats.l1_hits = 1) :=
  ⟨rfl, rfl⟩

/-- C6 counterexample: a manager with no PostgreSQL connection whose L1
caches a value for entity `e1`; `invalidate("e1")` with no property name
removes nothing — afterwards L1 still holds the entity's key — refuting the
claim that entity-wide invalidation removes every cached key belonging to
the entity from both tiers. -/
theorem c6_counterexample_l1_only_key_survives :
    l1_holds
      (({ redis := some [(generate_cache_key "e1" "histogram", Cell.good 7)],
          postgres := none, l1_capacity := 1000, l1_ttl := none,
          stats := freshStats } : MetadataCacheManager Nat).invalidate
        "e1" none noFaults)
      (generate_cache_key "e1" "histogram") 7 = true := rfl

/-- C10 counterexample: a single `get` with no `compute_func` on a manager
whose L1 holds corrupt bytes at the key returns absent, yet increments
`l1_hits` to 1 — refuting the claim that an absent invocation increments
none of the outcome counters — and after this one-call sequence (which
contains an absent outcome) `l1_hits + l2_hits + misses` equals
`total_accesses` rather than being strictly less. -/
theorem c10_counterexample_absent_bumps_l1_hits :
    ((({ redis := some [(generate_cache_key "e1" "p1", Cell.corrupt)],
         postgres := none, l1_capacity := 1000, l1_ttl := none,
         stats := freshStats } : MetadataCacheManager Nat).get
        "e1" "p1" none noFaults).1 = Except.ok none) ∧
    ((({ redis := some [(generate_cache_key "e1" "p1", Cell.corrupt)],
         postgres := none, l1_capacity := 1000, l1_ttl := none,
         stats := freshStats } : MetadataCacheManager Nat).get
        "e1" "p1" none noFaults).2.stats.l1_hits = 1) ∧
    (outcomeSum
        ((({ redis := some [(generate_cache_key "e1" "p1", Cell.corrupt)],
             postgres := none, l1_capacity := 1000, l1_ttl := none,
             stats := freshStats } : MetadataCacheManager Nat).get
            "e1" "p1" none noFaults).2.stats) =
      ((({ redis := some [(generate_cache_key "e1" "p1", Cell.corrupt)],
           postgres := none, l1_capacity := 1000, l1_ttl := none,
           stats := freshStats } : MetadataCacheManager Nat).get
          "e1" "p1" none noFaults).2.stats.total_accesses)) :=
  ⟨rfl, rfl, rfl⟩

/-- C4 counterexample: the distinct pairs `("a:b", "c")` and `("a", "b:c")`
produce the same key string `"metadata:a:b:c"` and therefore deterministically
the same cache key — a systematic collision caused by the colon delimiter,
not a negligible hash collision — refuting the claim that distinct
(entityId, propertyName) pairs never collide. -/
theorem c4_counterexample_colon_collision :
    generate_cache_key "a:b" "c" = generate_cache_key "a" "b:c" ∧
    (("a:b", "c") : String × String) ≠ ("a", "b:c") := by
  exact ⟨rfl, by decide⟩

theorem descriptorGet_first {A V : Type} (func : A → V) (fname : String)
    (a : A) (log : Option (List (String × Nat))) :
    (LazyProperty.descriptorGet func fname ⟨a, none, log⟩).1 = func a ∧
    (LazyProperty.descriptorGet func fname ⟨a, none, log⟩).2.1.slot = some (func a) ∧
    (LazyProperty.descriptorGet func fname ⟨a, none, log⟩).2.2 = 1 := by
  unfold LazyProperty.descriptorGet
  cases log <;> simp

theorem descriptorGet_memoized {A V : Type} (func : A → V) (fname : String)
    (obj : LazyInstance A V) (v : V) (h : obj.slot = some v) :
    (LazyProperty.descriptorGet func fname obj).1 = v ∧
    (LazyProperty.descriptorGet func fname obj).2.1.slot = some v ∧
    (LazyProperty.descriptorGet func fname obj).2.2 = 0 := by
  unfold LazyProperty.descriptorGet
  rw [h]
  dsimp only
  rcases hlog : obj.access_log with _ | log
  · simp [h]
  · rcases hl : logLookup fname log with _ | n <;> simp [h, hl]

theorem descriptorGetN_memoized {A V : Type} (func : A → V) (fname : String)
    (obj : LazyInstance A V) (v : V) (n : Nat) (h : obj.slot = some v) :
    (∀ w ∈ (descriptorGetN func fname obj n).1, w = v) ∧
    (descriptorGetN func fname obj n).2.1.slot = some v ∧
    (descriptorGetN func fname obj n).2.2 = 0 := by
  induction n generalizing obj with
  | zero => simpa [descriptorGetN] using h
  | succ k ih =>
    have hg := descriptorGet_memoized func fname obj v h
    have ihr := ih (LazyProperty.descriptorGet func fname obj).2.1 hg.2.1
    unfold descriptorGetN
    dsimp only
    refine ⟨?_, ihr.2.1, ?_⟩
    · intro w hw
      rcases List.mem_cons.mp hw with hw | hw
      · rw [hw, hg.1]
      · exact ihr.1 w hw
    · rw [hg.2.2, ihr.2.2]

/-- C3: for every entity instance and lazy property, the Lazy Field Engine
invokes the bound compute function exactly once per instance: over any
sequence of `n ≥ 1` accesses starting from an unset slot, the compute
function runs exactly once, every access returns the same computed value,
and the slot ends holding that memoized value. -/
theorem c3_lazy_compute_once {A V : Type} (func : A → V) (fname : String)
    (a : A) (log : Option (List (String × Nat))) (n : Nat) (hn : 1 ≤ n) :
    (descriptorGetN func fname ⟨a, none, log⟩ n).2.2 = 1 ∧
    (∀ w ∈ (descriptorGetN func fname ⟨a, none, log⟩ n).1, w = func a) ∧
    (descriptorGetN func fname ⟨a, none, log⟩ n).2.1.slot = some (func a) := by
  cases n with
  | zero => exact absurd hn (by simp)
  | succ k =>
    have hf := descriptorGet_first func fname a log
    have hm := descriptorGetN_memoized func fname
      (LazyProperty.descriptorGet func fname ⟨a, none, log⟩).2.1 (func a) k hf.2.1
    unfold descriptorGetN
    dsimp only
    refine ⟨?_, ?_, hm.2.1⟩
    · rw [hf.2.2, hm.2.2]
    · intro w hw
      rcases List.mem_cons.mp hw with hw | hw
      · rw [hw, hf.1]
      · exact hm.1 w hw

theorem sha256Round_length (st : List Nat) (kw : Nat × Nat) :
    (sha256Round st kw).length = st.length := by
  unfold sha256Round
  split
  · simp
  · rfl

theorem foldl_sha256Round_length (l : List (Nat × Nat)) (st : List Nat) :
    (l.foldl (fun s p => sha256Round s p) st).length = st.length := by
  induction l generalizing st with
  | nil => rfl
  | cons p rest ih => rw [List.foldl_cons, ih, sha256Round_length]

theorem sha256Block_length (hv b : List Nat) :
    (sha256Block hv b).length = hv.length := by
  unfold sha256Block
  rw [List.length_map, List.length_zip, foldl_sha256Round_length]
  simp

theorem foldl_sha256Block_length (blocks : List (List Nat)) (hv : List Nat) :
    (blocks.foldl sha256Block hv).length = hv.length := by
  induction blocks generalizing hv with
  | nil => rfl
  | cons b rest ih => rw [List.foldl_cons, ih, sha256Block_length]

theorem sha256Words_length (msg : List Nat) : (sha256Words msg).length = 8 := by
  unfold sha256Words
  rw [foldl_sha256Block_length]
  rfl

theorem hexWord_length (x : Nat) : ∀ d, (hexWord x d).length = d := by
  intro d
  induction d with
  | zero => rfl
  | succ k ih => simp [hexWord, ih]

theorem flatMap_hexWord_length (l : List Nat) :
    (l.flatMap (fun w => hexWord w 8)).length = 8 * l.length := by
  induction l with
  | nil => rfl
  | cons w rest ih =>
    rw [List.flatMap_cons, List.length_append, ih, hexWord_length,
      List.length_cons]
    ring

theorem sha256hex_data_length (s : String) : (sha256hex s).data.length = 64 := by
  unfold sha256hex
  show ((sha256Words (strBytes s)).flatMap (fun w => hexWord w 8)).length = 64
  rw [flatMap_hexWord_length, sha256Words_length]

/-- C4 (amended): the cache key derivation is a deterministic function of the
key string `"metadata:<id>:<name>"` — it always yields a fixed-length
(16-character) key and equal key strings always yield equal keys.  Distinct
(entityId, propertyName) pairs whose key strings coincide (possible exactly
when a colon makes the concatenation ambiguous) therefore always collide, so
injectivity on pairs does not hold. -/
theorem c4_key_fixed_length_and_keystring_determined
    (mid pn mid' pn' : String) :
    (generate_cache_key mid pn).length = 16 ∧
    (key_string mid pn = key_string mid' pn' →
      generate_cache_key mid pn = generate_cache_key mid' pn') := by
  constructor
  · show ((sha256hex (key_string mid pn)).data.take 16).length = 16
    rw [List.length_take, sha256hex_data_length]
    decide
  · intro h
    unfold generate_cache_key
    rw [h]

/-- C9: when `total_accesses` is zero, `get_statistics` returns the raw
counter dictionary with no derived rate or latency fields (the `raw`
constructor carries only the counters, so no division is performed), and
`_calculate_average_access_time` returns `0.0`. -/
theorem c9_no_division_when_no_accesses {V : Type} (m : MetadataCacheManager V)
    (h : m.stats.total_accesses = 0) :
    get_statistics m = StatisticsReport.raw m.stats ∧
    calculate_average_access_time m = 0 := by
  unfold get_statistics calculate_average_access_time
  simp [h]

/-- C10 (amended): every invocation of `get` increments `total_accesses` by
exactly 1, including absent invocations.  An absent invocation whose key
meets no corrupt cached bytes increments none of `l1_hits`, `l2_hits`,
`misses` (a deserialization fault, however, can increment a hit counter even
on an absent call).  Consequently, after any sequence of calls from a fresh
manager in which every call bumps the outcome counters at most once and at
least one call returns absent without bumping any of them,
`l1_hits + l2_hits + misses` is strictly less than `total_accesses`. -/
theorem c10_total_and_absent_accounting {V : Type} :
    (∀ (m : MetadataCacheManager V) (c : CallIn V),
      (step m c).stats.total_accesses = m.stats.total_accesses + 1) ∧
    (∀ (m : MetadataCacheManager V) (c : CallIn V),
      no_corrupt_at m (generate_cache_key c.metadata_id c.property_name) = true →
      stepResult m c = Except.ok none →
      (step m c).stats.l1_hits = m.stats.l1_hits ∧
      (step m c).stats.l2_hits = m.stats.l2_hits ∧
      (step m c).stats.misses = m.stats.misses) ∧
    (∀ (m0 : MetadataCacheManager V) (cs : List (CallIn V)),
      m0.stats = freshStats →
      allCalls call_bounded m0 cs = true →
      someCall call_pure_absent m0 cs = true →
      outcomeSum (runGets m0 cs).stats < (runGets m0 cs).stats.total_accesses) := by
  refine ⟨fun m c => step_total m c, ?_, ?_⟩
  · intro m c hnc habs
    have h := get_absent_state m c.metadata_id c.property_name
      c.compute_func c.faults hnc habs
    unfold step
    rw [h]
    simp [bumpTotal]
  · intro m0 cs hfresh hb ha
    have hsum := run_sum_lt cs m0 hb ha
    have htot := run_total cs m0
    rw [hfresh] at hsum htot
    unfold outcomeSum at hsum ⊢
    unfold freshStats at hsum htot
    simp at hsum htot
    omega

/-- C7: after a sequence of `get` calls each of which produces exactly one
outcome-counter increment (an L1 hit, an L2 hit, or a compute miss — and no
other outcomes), starting from a fresh manager, `get_statistics` reports
`l1_hit_rate` equal to `H1/(H1+H2+M)` exactly (in the exact rational
embedding of the division), likewise for the other two rates, and the three
reported rates sum to 1. -/
theorem c7_hit_rates_exact {V : Type} (m0 : MetadataCacheManager V)
    (cs : List (CallIn V)) (hfresh : m0.stats = freshStats)
    (hpure : allCalls call_pure m0 cs = true) (hne : cs ≠ []) :
    reported_l1_hit_rate (get_statistics (runGets m0 cs)) =
      some (((runGets m0 cs).stats.l1_hits : ℚ) /
        (((runGets m0 cs).stats.l1_hits + (runGets m0 cs).stats.l2_hits +
          (runGets m0 cs).stats.misses : ℕ) : ℚ)) ∧
    reported_l2_hit_rate (get_statistics (runGets m0 cs)) =
      some (((runGets m0 cs).stats.l2_hits : ℚ) /
        (((runGets m0 cs).stats.l1_hits + (runGets m0 cs).stats.l2_hits +
          (runGets m0 cs).stats.misses : ℕ) : ℚ)) ∧
    reported_miss_rate (get_statistics (runGets m0 cs)) =
      some (((runGets m0 cs).stats.misses : ℚ) /
        (((runGets m0 cs).stats.l1_hits + (runGets m0 cs).stats.l2_hits +
          (runGets m0 cs).stats.misses : ℕ) : ℚ)) ∧
    ((runGets m0 cs).stats.l1_hits : ℚ) /
        (((runGets m0 cs).stats.l1_hits + (runGets m0 cs).stats.l2_hits +
          (runGets m0 cs).stats.misses : ℕ) : ℚ) +
      ((runGets m0 cs).stats.l2_hits : ℚ) /
        (((runGets m0 cs).stats.l1_hits + (runGets m0 cs).stats.l2_hits +
          (runGets m0 cs).stats.misses : ℕ) : ℚ) +
      ((runGets m0 cs).stats.misses : ℚ) /
        (((runGets m0 cs).stats.l1_hits + (runGets m0 cs).stats.l2_hits +
          (runGets m0 cs).stats.misses : ℕ) : ℚ) = 1 := by
  have htot := run_total cs m0
  have hsum := run_pure_sum cs m0 hpure
  rw [hfresh] at htot hsum
  unfold freshStats at htot hsum
  unfold outcomeSum at hsum
  simp at htot hsum
  have hlen : 1 ≤ cs.length := by
    cases cs with
    | nil => exact absurd rfl hne
    | cons c rest => simp
  have hT : (runGets m0 cs).stats.total_accesses =
      (runGets m0 cs).stats.l1_hits + (runGets m0 cs).stats.l2_hits +
        (runGets m0 cs).stats.misses := by omega
  have hpos : ¬((runGets m0 cs).stats.total_accesses = 0) := by omega
  have hTne : ((((runGets m0 cs).stats.l1_hits + (runGets m0 cs).stats.l2_hits +
      (runGets m0 cs).stats.misses : ℕ)) : ℚ) ≠ 0 :=
    Nat.cast_ne_zero.mpr (by omega)
  unfold get_statistics
  rw [if_neg hpos]
  unfold reported_l1_hit_rate reported_l2_hit_rate reported_miss_rate
  rw [hT]
  refine ⟨rfl, rfl, rfl, ?_⟩
  rw [div_add_div_same, div_add_div_same]
  rw [show (((runGets m0 cs).stats.l1_hits : ℚ) +
      ((runGets m0 cs).stats.l2_hits : ℚ) +
      ((runGets m0 cs).stats.misses : ℚ)) =
      ((((runGets m0 cs).stats.l1_hits + (runGets m0 cs).stats.l2_hits +
        (runGets m0 cs).stats.misses : ℕ)) : ℚ) by push_cast; ring]
  exact div_self hTne

/-- Witness for C1 on a concrete manager with both tiers present and empty. -/
theorem c1_compute_miss_populates_witness :
    l1_misses wmEmpty (generate_cache_key "e1" "p1") = true ∧
    (wmEmpty.get "e1" "p1" (some (Except.ok 7)) noFaults).1 =
      Except.ok (some 7) :=
  ⟨rfl, (c1_compute_miss_populates wmEmpty "e1" "p1" 7 rfl rfl).1⟩

/-- Witness for C2 on a concrete manager whose L2 holds the key. -/
theorem c2_l2_hit_promotes_witness :
    lookupL2 (generate_cache_key "e2" "p2") [wrec2] = some wrec2 ∧
    (wmL2.get "e2" "p2" none noFaults).1 = Except.ok (some 5) :=
  ⟨rfl, (c2_l2_hit_promotes wmL2 "e2" "p2" [] [wrec2] wrec2 5 none
    rfl rfl rfl rfl rfl).1⟩

/-- Witness for C3: three accesses on a concrete instance invoke the compute
function exactly once. -/
theorem c3_lazy_compute_once_witness :
    1 ≤ 3 ∧
    (descriptorGetN (fun x : Nat => x + 1) "histogram"
      (⟨4, none, none⟩ : LazyInstance Nat Nat) 3).2.2 = 1 :=
  ⟨by decide, (c3_lazy_compute_once (fun x : Nat => x + 1) "histogram" 4 none 3
    (by decide)).1⟩

/-- Witness for the amended C4 at a concrete pair. -/
theorem c4_key_length_witness :
    (generate_cache_key "e1" "p1").length = 16 ∧
    (key_string "e1" "p1" = key_string "e1" "p1" →
      generate_cache_key "e1" "p1" = generate_cache_key "e1" "p1") :=
  c4_key_fixed_length_and_keystring_determined "e1" "p1" "e1" "p1"

/-- Witness for the amended C5 on a concrete manager with both tiers
corrupt. -/
theorem c5_deserialization_fault_witness :
    lookupStore (generate_cache_key "e1" "p1")
      [(generate_cache_key "e1" "p1", (Cell.corrupt : Cell Nat))] =
      some Cell.corrupt ∧
    (wmCorrupt.get "e1" "p1" (some (Except.ok 9)) noFaults).1 =
      Except.ok (some 9) :=
  ⟨rfl, (c5_deserialization_fault_falls_through wmCorrupt "e1" "p1"
    [(generate_cache_key "e1" "p1", Cell.corrupt)]
    [⟨generate_cache_key "e1" "p1", "e1", "p1", Cell.corrupt⟩]
    ⟨generate_cache_key "e1" "p1", "e1", "p1", Cell.corrupt⟩ 9
    rfl rfl rfl rfl rfl).1⟩

/-- Witness for the amended C6: specific-key invalidation empties the hot
tier at the key on a concrete manager. -/
theorem c6_invalidate_scoped_witness :
    ("p1" ≠ "") ∧
    l1_absent (wmGood.invalidate "e1" (some "p1") noFaults)
      (generate_cache_key "e1" "p1") = true :=
  ⟨by decide, ((@c6_invalidate_scoped Nat).1 wmGood "e1" "p1" (by decide)).1⟩

/-- Witness for C7: a single compute-miss call from a fresh manager yields an
exactly-reported `l1_hit_rate`. -/
theorem c7_hit_rates_exact_witness :
    allCalls call_pure wmEmpty [wcallCompute] = true ∧
    reported_l1_hit_rate (get_statistics (runGets wmEmpty [wcallCompute])) =
      some (((runGets wmEmpty [wcallCompute]).stats.l1_hits : ℚ) /
        (((runGets wmEmpty [wcallCompute]).stats.l1_hits +
          (runGets wmEmpty [wcallCompute]).stats.l2_hits +
          (runGets wmEmpty [wcallCompute]).stats.misses : ℕ) : ℚ)) :=
  ⟨rfl, (c7_hit_rates_exact wmEmpty [wcallCompute] rfl rfl
    (List.cons_ne_nil _ _)).1⟩

/-- Witness for C9 on a freshly constructed manager. -/
theorem c9_no_division_witness :
    wmEmpty.stats.total_accesses = 0 ∧
    get_statistics wmEmpty = StatisticsReport.raw freshStats :=
  ⟨rfl, (c9_no_division_when_no_accesses wmEmpty rfl).1⟩

/-- Witness for the amended C10: one concrete call bumps `total_accesses` by
one, and a one-call absent run from a fresh manager leaves the outcome sum
strictly below `total_accesses`. -/
theorem c10_accounting_witness :
    (step wmEmpty wcallAbsent).stats.total_accesses =
      wmEmpty.stats.total_accesses + 1 ∧
    outcomeSum (runGets wmEmpty [wcallAbsent]).stats <
      (runGets wmEmpty [wcallAbsent]).stats.total_accesses :=
  ⟨(@c10_total_and_absent_accounting Nat).1 wmEmpty wcallAbsent,
   (@c10_total_and_absent_accounting Nat).2.2 wmEmpty [wcallAbsent]
     rfl rfl rfl⟩
